import Mathlib

/-!
Shallow embedding of the gcr-cleaner core (`pkg/gcrcleaner/filter.go`,
`pkg/gcrcleaner/server.go`) together with theorems checking the
natural-language specification against it.

Go strings are modelled by Lean `String`; `strings.HasPrefix` and
`sort.Strings` are modelled on the underlying character lists so that the
definitions compute.  Go's `regexp.Regexp` is external to the repository, so
a compiled regular expression is modelled as an abstract matcher
`String → Bool` and `regexp.Compile` as an abstract parameter
`String → Except String (String → Bool)`; a possibly-nil `*regexp.Regexp`
field is an `Option (String → Bool)`.
-/

/-- Model of Go `strings.HasPrefix s p`: `p` is a prefix of `s`. -/
def strStartsWith (s p : String) : Bool :=
  p.data.isPrefixOf s.data

/-- Lexicographic order on character lists, the model of Go's `<=` on
strings used by `sort.Strings`. -/
def charListLe : List Char → List Char → Bool
  | [], _ => true
  | _ :: _, [] => false
  | a :: as, b :: bs => if a = b then charListLe as bs else decide (a < b)

/-- Lexicographic order on strings. -/
def strLe (a b : String) : Bool :=
  charListLe a.data b.data

/-- ItemFilter (`filter.go`): the closed set of variants
`ItemFilterNull`, `ItemFilterAny`, `ItemFilterAll`.  The `Any`/`All`
variants hold the (possibly nil) compiled regular expression. -/
inductive ItemFilter where
  | Null : ItemFilter
  | Any : Option (String → Bool) → ItemFilter
  | All : Option (String → Bool) → ItemFilter

/-- Matches (`filter.go`): `ItemFilterNull.Matches` returns `false`;
`ItemFilterAny.Matches` returns `false` for a nil regex and otherwise
scans the list for one match; `ItemFilterAll.Matches` returns `false` for
a nil regex and otherwise requires every element to match. -/
def ItemFilter.Matches : ItemFilter → List String → Bool
  | .Null, _ => false
  | .Any none, _ => false
  | .Any (some re), tags => tags.any (fun t => re t)
  | .All none, _ => false
  | .All (some re), tags => tags.all (fun t => re t)

/-- Whether an `ItemFilter` is the `Null` variant (a filter that was not
configured). -/
def ItemFilter.isNull : ItemFilter → Bool
  | .Null => true
  | _ => false

/-- Errors of `BuildItemFilter` (`filter.go`): the mutual-exclusion
configuration error, or a compile error wrapping the offending pattern and
the parser error. -/
inductive BuildError where
  | configuration : BuildError
  | compileAny : String → String → BuildError
  | compileAll : String → String → BuildError
deriving DecidableEq

/-- BuildItemFilter (`filter.go`): rejects two non-empty patterns, then
compiles the `any` pattern if set, else the `all` pattern if set, else
returns the `Null` variant.  `compile` stands for `regexp.Compile`. -/
def BuildItemFilter (compile : String → Except String (String → Bool))
    (anyPat allPat : String) : Except BuildError ItemFilter :=
  if anyPat ≠ "" ∧ allPat ≠ "" then
    .error .configuration
  else if anyPat ≠ "" then
    match compile anyPat with
    | .error e => .error (.compileAny anyPat e)
    | .ok re => .ok (.Any (some re))
  else if allPat ≠ "" then
    match compile allPat with
    | .error e => .error (.compileAll allPat e)
    | .ok re => .ok (.All (some re))
  else
    .ok .Null

/-- C3: for the three filter variants produced by `BuildItemFilter`
(whose regex, when present, is never nil): `Null.Matches` is `false` on
every list; `Any.Matches` is `false` on `[]` and true on a list iff some
element matches; `All.Matches` is `true` on `[]` (vacuous truth, the
regex being non-nil) and true on a list iff every element matches. -/
theorem itemFilter_matches_semantics (re : String → Bool) (tags : List String) :
    (∀ l : List String, ItemFilter.Matches .Null l = false) ∧
    ItemFilter.Matches (.Any (some re)) [] = false ∧
    (ItemFilter.Matches (.Any (some re)) tags = true ↔ ∃ t ∈ tags, re t = true) ∧
    ItemFilter.Matches (.All (some re)) [] = true ∧
    (ItemFilter.Matches (.All (some re)) tags = true ↔ ∀ t ∈ tags, re t = true) := by
  refine ⟨fun l => rfl, rfl, ?_, rfl, ?_⟩
  · simp [ItemFilter.Matches, List.any_eq_true]
  · simp [ItemFilter.Matches, List.all_eq_true]

/-- C4: `BuildItemFilter` returns the configuration error whenever both
patterns are non-empty, for every compile function (so also for invalid
regexes: the mutual-exclusion check precedes compilation); with exactly
one pattern set it compiles that pattern, propagating a compile failure
as an error wrapping the pattern; with neither set it returns `Null`. -/
theorem buildItemFilter_spec (compile : String → Except String (String → Bool))
    (anyPat allPat : String) :
    (anyPat ≠ "" → allPat ≠ "" →
      BuildItemFilter compile anyPat allPat = .error .configuration) ∧
    (anyPat ≠ "" → allPat = "" →
      (∀ re, compile anyPat = .ok re →
        BuildItemFilter compile anyPat allPat = .ok (.Any (some re))) ∧
      (∀ e, compile anyPat = .error e →
        BuildItemFilter compile anyPat allPat = .error (.compileAny anyPat e))) ∧
    (anyPat = "" → allPat ≠ "" →
      (∀ re, compile allPat = .ok re →
        BuildItemFilter compile anyPat allPat = .ok (.All (some re))) ∧
      (∀ e, compile allPat = .error e →
        BuildItemFilter compile anyPat allPat = .error (.compileAll allPat e))) ∧
    (anyPat = "" → allPat = "" →
      BuildItemFilter compile anyPat allPat = .ok .Null) := by
  refine ⟨?_, ?_, ?_, ?_⟩
  · intro h1 h2
    simp [BuildItemFilter, h1, h2]
  · intro h1 h2
    constructor
    · intro re hre
      simp [BuildItemFilter, h1, h2, hre]
    · intro e he
      simp [BuildItemFilter, h1, h2, he]
  · intro h1 h2
    constructor
    · intro re hre
      simp [BuildItemFilter, h1, h2, hre]
    · intro e he
      simp [BuildItemFilter, h1, h2, he]
  · intro h1 h2
    simp [BuildItemFilter, h1, h2]

/-- Witness for C4 at concrete inputs: both patterns set yields the
configuration error regardless of the compile function. -/
theorem buildItemFilter_spec_witness :
    BuildItemFilter (fun _ => .ok (fun _ => true)) "b" "c" =
      .error .configuration :=
  (buildItemFilter_spec (fun _ => .ok (fun _ => true)) "b" "c").1
    (by decide) (by decide)

/-- AssetPodFilter (`filter.go`): the live-image index.  The Go
`map[string][]string` is modelled as an association list with unique keys;
`repos` is the configured list of repositories being cleaned. -/
structure AssetPodFilter where
  images : List (String × List String)
  repos : List String

/-- Lookup in the association list modelling the Go map `images`. -/
def lookupRepo : List (String × List String) → String → Option (List String)
  | [], _ => none
  | (k, v) :: rest, repo => if k = repo then some v else lookupRepo rest repo

/-- Map update `images[key] = ids`, replacing an existing entry or
appending a new one. -/
def setRepo : List (String × List String) → String → List String → List (String × List String)
  | [], repo, ids => [(repo, ids)]
  | (k, v) :: rest, repo, ids =>
      if k = repo then (repo, ids) :: rest else (k, v) :: setRepo rest repo ids

/-- Add (`filter.go`): skips (no error) an image that no configured
repository is a prefix of; otherwise parses it and appends the parsed
identifier to the parsed repository's entry.  `parseRef` stands for
`gcrname.ParseReference`, returning the pair
(`ref.Context().String()`, `ref.Identifier()`). -/
def AssetPodFilter.Add (parseRef : String → Except String (String × String))
    (a : AssetPodFilter) (image : String) : Except String AssetPodFilter :=
  if a.repos.any (fun repo => strStartsWith image repo) then
    match parseRef image with
    | .error e => .error e
    | .ok (repo, identifier) =>
        .ok { a with
              images := setRepo a.images repo
                ((lookupRepo a.images repo).getD [] ++ [identifier]) }
  else
    .ok a

/-- Matches (`filter.go`): true iff the repository is present in the index
and one of its stored identifiers is non-empty and is a prefix of the
digest or equals one of the tags. -/
def AssetPodFilter.Matches (a : AssetPodFilter) (repo digest : String)
    (tags : List String) : Bool :=
  match lookupRepo a.images repo with
  | some repoMatch =>
      repoMatch.any (fun identifier =>
        (identifier != "") &&
          (strStartsWith digest identifier ||
            tags.any (fun tag => identifier == tag)))
  | none => false

theorem lookupRepo_setRepo_self (l : List (String × List String))
    (k : String) (v : List String) :
    lookupRepo (setRepo l k v) k = some v := by
  induction l with
  | nil => simp [setRepo, lookupRepo]
  | cons p rest ih =>
      obtain ⟨pk, pv⟩ := p
      by_cases h : pk = k
      · simp [setRepo, lookupRepo, h]
      · simp [setRepo, lookupRepo, h, ih]

theorem lookupRepo_setRepo_ne (l : List (String × List String))
    (k : String) (v : List String) (r : String) (h : r ≠ k) :
    lookupRepo (setRepo l k v) r = lookupRepo l r := by
  induction l with
  | nil => simp [setRepo, lookupRepo, Ne.symm h]
  | cons p rest ih =>
      obtain ⟨pk, pv⟩ := p
      by_cases hk : pk = k
      · subst hk
        simp [setRepo, lookupRepo, Ne.symm h]
      · simp [setRepo, lookupRepo, hk, ih]

/-- C5: `AssetPodFilter.Matches` returns false when the repository is
absent from the index, and otherwise returns true iff some stored
identifier for that repository is non-empty and either is a prefix of the
digest or equals one of the tags. -/
theorem assetPodFilter_matches_spec (a : AssetPodFilter)
    (repo digest : String) (tags : List String) :
    (lookupRepo a.images repo = none →
      a.Matches repo digest tags = false) ∧
    (∀ ids, lookupRepo a.images repo = some ids →
      (a.Matches repo digest tags = true ↔
        ∃ i ∈ ids, i ≠ "" ∧ (strStartsWith digest i = true ∨ i ∈ tags))) := by
  constructor
  · intro h
    simp [AssetPodFilter.Matches, h]
  · intro ids h
    simp only [AssetPodFilter.Matches, h, List.any_eq_true, Bool.and_eq_true,
      Bool.or_eq_true, bne_iff_ne, ne_eq, beq_iff_eq]
    constructor
    · rintro ⟨i, hi, hne, hd | ⟨t, ht, rfl⟩⟩
      · exact ⟨i, hi, hne, Or.inl hd⟩
      · exact ⟨i, hi, hne, Or.inr ht⟩
    · rintro ⟨i, hi, hne, hd | ht⟩
      · exact ⟨i, hi, hne, Or.inl hd⟩
      · exact ⟨i, hi, hne, Or.inr ⟨i, ht, rfl⟩⟩

/-- Witness for C5 at a concrete index: the stored tag `t1` for
repository `r` makes a query with that tag match. -/
theorem assetPodFilter_matches_spec_witness :
    AssetPodFilter.Matches ⟨[("r", ["t1"])], ["r"]⟩ "r" "sha256:d" ["t1"] = true := by
  have h := (assetPodFilter_matches_spec ⟨[("r", ["t1"])], ["r"]⟩ "r" "sha256:d" ["t1"]).2
    ["t1"] rfl
  exact h.mpr ⟨"t1", by decide, by decide, Or.inr (by decide)⟩

/-- C6: `Add` is an error-free no-op when no managed repository is a
prefix of the raw reference; otherwise it returns an error exactly when
parsing fails, and on success it appends the parsed identifier to the
parsed repository's entry (appending even when the identifier is already
present, so duplicates are allowed) and leaves every other entry
unchanged. -/
theorem assetPodFilter_add_spec
    (parseRef : String → Except String (String × String))
    (a : AssetPodFilter) (image : String) :
    (a.repos.any (fun repo => strStartsWith image repo) = false →
      AssetPodFilter.Add parseRef a image = .ok a) ∧
    (a.repos.any (fun repo => strStartsWith image repo) = true →
      (∀ e, parseRef image = .error e →
        AssetPodFilter.Add parseRef a image = .error e) ∧
      (∀ repo identifier, parseRef image = .ok (repo, identifier) →
        AssetPodFilter.Add parseRef a image =
          .ok { a with
                images := setRepo a.images repo
                  ((lookupRepo a.images repo).getD [] ++ [identifier]) } ∧
        lookupRepo (setRepo a.images repo
            ((lookupRepo a.images repo).getD [] ++ [identifier])) repo =
          some ((lookupRepo a.images repo).getD [] ++ [identifier]) ∧
        ∀ r, r ≠ repo →
          lookupRepo (setRepo a.images repo
              ((lookupRepo a.images repo).getD [] ++ [identifier])) r =
            lookupRepo a.images r)) := by
  constructor
  · intro h
    simp [AssetPodFilter.Add, h]
  · intro h
    constructor
    · intro e he
      simp [AssetPodFilter.Add, h, he]
    · intro repo identifier hp
      refine ⟨by simp [AssetPodFilter.Add, h, hp], lookupRepo_setRepo_self .., ?_⟩
      intro r hr
      exact lookupRepo_setRepo_ne _ _ _ _ hr

/-- Witness for C6 at concrete inputs: adding `r:tag1` to an empty index
managed for repository `r` creates the entry `("r", ["tag1"])`. -/
theorem assetPodFilter_add_spec_witness :
    AssetPodFilter.Add (fun _ => .ok ("r", "tag1")) ⟨[], ["r"]⟩ "r:tag1" =
      .ok ⟨[("r", ["tag1"])], ["r"]⟩ := by
  have h := ((assetPodFilter_add_spec (fun _ => .ok ("r", "tag1"))
    ⟨[], ["r"]⟩ "r:tag1").2 (by decide)).2 "r" "tag1" rfl
  exact h.1

/-- Modelled from the spec: the `Cache` implementation is not under `src/`
(only the `Cache` consumer `Server.PubSubHandler` is).  Spec section 4.5
defines `Insert(key)` as an atomic check-and-set returning true iff the
key was already present.  The model is the cache state as a list of keys
and `Insert` returning the pair (was already present, new state). -/
def cacheInsert (cache : List String) (key : String) : Bool × List String :=
  if key ∈ cache then (true, cache) else (false, key :: cache)

/-- pubsubMessage (`server.go`): subscription plus a message carrying an
id and a data payload. -/
structure PubsubMessage where
  data : String
  id : String
  subscription : String

/-- Observable outcome of one `PubSubHandler` invocation: the HTTP status
written, whether a background clean was spawned, and the cache state
afterwards. -/
structure PubSubResult where
  status : Nat
  processed : Bool
  cache : List String
deriving DecidableEq

/-- PubSubHandler (`server.go`): a decode failure is a 400; then the
dedup key `subscription + "/" + message id` is inserted into the cache; a
duplicate is acknowledged with 204 without processing; then an empty data
payload is rejected with 400; otherwise the background clean is spawned
and 204 returned.  `none` models a request whose envelope fails to
decode. -/
def pubSubHandler (cache : List String) (req : Option PubsubMessage) : PubSubResult :=
  match req with
  | none => { status := 400, processed := false, cache := cache }
  | some m =>
      let msgID := m.subscription ++ "/" ++ m.id
      let ins := cacheInsert cache msgID
      if ins.1 then
        { status := 204, processed := false, cache := ins.2 }
      else if m.data.length = 0 then
        { status := 400, processed := false, cache := ins.2 }
      else
        { status := 204, processed := true, cache := ins.2 }

/-- Counterexample to C2 as stated: a first-delivery message with empty
data is rejected with a 400, but only after the dedup insert, so the
cache is changed by the request, and a redelivery of the same message id
with non-empty data is treated as a duplicate (no processing). -/
theorem pubsub_emptyData_before_dedup_cex :
    (pubSubHandler [] (some ⟨"", "id1", "sub"⟩)).cache ≠ [] ∧
    (pubSubHandler (pubSubHandler [] (some ⟨"", "id1", "sub"⟩)).cache
      (some ⟨"payload", "id1", "sub"⟩)).processed = false := by
  decide

/-- C2 amended: an empty-data message is rejected with a client error
(400) and spawns no processing, but the rejection happens after the dedup
insert: its key is added to the cache, and any later message with the
same subscription and id — non-empty data included — is acknowledged with
204 as a duplicate without processing. -/
theorem pubsub_emptyData_after_dedup (cache : List String) (m : PubsubMessage)
    (hd : m.data = "")
    (hn : (m.subscription ++ "/" ++ m.id) ∉ cache) :
    pubSubHandler cache (some m) =
      { status := 400, processed := false,
        cache := (m.subscription ++ "/" ++ m.id) :: cache } ∧
    ∀ m2 : PubsubMessage, m2.subscription = m.subscription → m2.id = m.id →
      pubSubHandler ((m.subscription ++ "/" ++ m.id) :: cache) (some m2) =
        { status := 204, processed := false,
          cache := (m.subscription ++ "/" ++ m.id) :: cache } := by
  constructor
  · simp [pubSubHandler, cacheInsert, hn, hd]
  · intro m2 hs hi
    simp [pubSubHandler, cacheInsert, hs, hi]

/-- Witness for C2's amended theorem at a concrete message: the empty-data
request is rejected with 400 yet records its dedup key. -/
theorem pubsub_emptyData_after_dedup_witness :
    pubSubHandler [] (some ⟨"", "id1", "sub"⟩) =
      { status := 400, processed := false, cache := ["sub/id1"] } := by
  have h := pubsub_emptyData_after_dedup [] ⟨"", "id1", "sub"⟩ rfl (by decide)
  exact h.1

/-- C8: the dedup key is `subscription + "/" + message id`; a request
whose key is already cached is acknowledged with 204 and spawns no
processing, with the cache unchanged; `cacheInsert` returns false on the
first call for a key (inserting it) and true on every call with a key
already present, and a key is always present after an insert, so every
subsequent call returns true. -/
theorem pubsub_dedup_spec (cache : List String) (m : PubsubMessage)
    (h : (m.subscription ++ "/" ++ m.id) ∈ cache) :
    pubSubHandler cache (some m) =
      { status := 204, processed := false, cache := cache } ∧
    (∀ c k, k ∉ c → cacheInsert c k = (false, k :: c)) ∧
    (∀ c k, k ∈ c → cacheInsert c k = (true, c)) ∧
    (∀ c k, k ∈ (cacheInsert c k).2) := by
  refine ⟨?_, ?_, ?_, ?_⟩
  · simp [pubSubHandler, cacheInsert, h]
  · intro c k hk
    simp [cacheInsert, hk]
  · intro c k hk
    simp [cacheInsert, hk]
  · intro c k
    by_cases hk : k ∈ c
    · simp [cacheInsert, hk]
    · simp [cacheInsert, hk]

/-- Witness for C8 at a concrete cached key: redelivery of message id
`id1` on subscription `sub` is acknowledged without processing. -/
theorem pubsub_dedup_spec_witness :
    pubSubHandler ["sub/id1"] (some ⟨"payload", "id1", "sub"⟩) =
      { status := 204, processed := false, cache := ["sub/id1"] } :=
  (pubsub_dedup_spec ["sub/id1"] ⟨"payload", "id1", "sub"⟩ (by decide)).1

/-- JSON value as seen by `duration.UnmarshalJSON` (`server.go`): a JSON
number, a JSON string, or anything else. -/
inductive JsonValue where
  | num : Int → JsonValue
  | str : String → JsonValue
  | other : JsonValue

/-- UnmarshalJSON for `duration` (`server.go`): a JSON number is converted
by `time.Duration(val)`, so its value is taken verbatim in Go
`time.Duration` base units (nanoseconds); a JSON string goes through
`time.ParseDuration` (external, the abstract `parseDuration` parameter);
anything else is an error. -/
def durationUnmarshal (parseDuration : String → Except String Int) :
    JsonValue → Except String Int
  | .num v => .ok v
  | .str s => parseDuration s
  | .other => .error "invalid duration type"

/-- Cutoff computation in `Server.clean` (`server.go`): the grace value is
negated only when positive, then added to the current time. -/
def computeSince (now grace : Int) : Int :=
  let sub := if grace > 0 then grace * -1 else grace
  now + sub

/-- Counterexample to C7 as stated: for the grace value −1 the computed
cutoff is now + (−1), not now − (−1). -/
theorem computeSince_neg_grace_cex : computeSince 0 (-1) ≠ 0 - (-1) := by
  decide

/-- C7 amended: a numeric grace value is taken verbatim in Go
`time.Duration` base units (nanoseconds), and the computed cutoff equals
now − |grace| — which is now − grace whenever grace is non-negative — so
the grace only ever moves the cutoff backward. -/
theorem computeSince_abs_grace (parseDuration : String → Except String Int)
    (now grace v : Int) :
    durationUnmarshal parseDuration (.num v) = .ok v ∧
    computeSince now grace = now - |grace| ∧
    computeSince now grace ≤ now := by
  refine ⟨rfl, ?_, ?_⟩
  · by_cases hg : grace > 0
    · rw [abs_of_pos hg]
      simp only [computeSince, if_pos hg]
      omega
    · rw [abs_of_nonpos (by omega)]
      simp only [computeSince, if_neg hg]
      omega
  · by_cases hg : grace > 0
    · simp only [computeSince, if_pos hg]
      omega
    · simp only [computeSince, if_neg hg]
      omega

/-- ManifestRecord: repository, digest, created and uploaded timestamps
(integers; `none` models a zero uploaded time), and tags. -/
structure Manifest where
  repo : String
  digest : String
  created : Int
  uploaded : Option Int
  tags : List String

/-- Effective timestamp of a manifest: the uploaded time, else the
created time. -/
def Manifest.effectiveTime (m : Manifest) : Int :=
  m.uploaded.getD m.created

/-- Modelled from the spec: `Cleaner.shouldDelete` is not under `src/`
(only its test `TestShouldDelete` and its caller `Server.clean` are).
Spec section 4.3 fixes the precedence: repoSkipFilter match, configured
repoPrefixFilter unmatched, repoKeepFilter match, live-image filter
match, tagKeepFilter match, effective timestamp at or after the cutoff,
configured tagFilter unmatched — each makes the manifest ineligible;
otherwise it is eligible.  `podMatches` stands for the live-image
filter's `Matches` method. -/
def shouldDelete (podMatches : String → String → List String → Bool)
    (m : Manifest) (since : Int)
    (repoSkipFilter repoPrefixFilter repoKeepFilter tagFilter tagKeepFilter :
      ItemFilter) : Bool :=
  if repoSkipFilter.Matches [m.repo] then false
  else if !repoPrefixFilter.isNull && !repoPrefixFilter.Matches [m.repo] then false
  else if repoKeepFilter.Matches [m.repo] then false
  else if podMatches m.repo m.digest m.tags then false
  else if tagKeepFilter.Matches m.tags then false
  else if since ≤ m.effectiveTime then false
  else if !tagFilter.isNull && !tagFilter.Matches m.tags then false
  else true

/-- C1: a tagKeepFilter match makes a manifest ineligible regardless of
its age, a manifest whose effective timestamp is at or after the cutoff
is ineligible even when the tag filter matches, and a manifest is
eligible iff none of the seven checks of spec section 4.3 fires. -/
theorem shouldDelete_precedence (podMatches : String → String → List String → Bool)
    (m : Manifest) (since : Int)
    (rsf rpf rkf tf tkf : ItemFilter) :
    (tkf.Matches m.tags = true →
      shouldDelete podMatches m since rsf rpf rkf tf tkf = false) ∧
    (since ≤ m.effectiveTime →
      shouldDelete podMatches m since rsf rpf rkf tf tkf = false) ∧
    (shouldDelete podMatches m since rsf rpf rkf tf tkf = true ↔
      rsf.Matches [m.repo] = false ∧
      (rpf.isNull = true ∨ rpf.Matches [m.repo] = true) ∧
      rkf.Matches [m.repo] = false ∧
      podMatches m.repo m.digest m.tags = false ∧
      tkf.Matches m.tags = false ∧
      m.effectiveTime < since ∧
      (tf.isNull = true ∨ tf.Matches m.tags = true)) := by
  unfold shouldDelete
  refine ⟨?_, ?_, ?_⟩
  · intro h
    split_ifs <;> simp_all
  · intro h
    split_ifs <;> simp_all
  · split_ifs with h1 h2 h3 h4 h5 h6 h7
    case _ => simp_all
    case _ => simp_all
    case _ => simp_all
    case _ => simp_all
    case _ => simp_all
    case _ =>
      simp only [Bool.false_eq_true, false_iff]
      rintro ⟨-, -, -, -, -, hlt, -⟩
      omega
    case _ => simp_all
    case _ =>
      simp only [true_iff]
      refine ⟨by simpa using h1, ?_, by simpa using h3, by simpa using h4,
        by simpa using h5, by omega, ?_⟩
      · by_cases hni : rpf.isNull = true
        · exact Or.inl hni
        · rw [Bool.not_eq_true] at hni
          refine Or.inr ?_
          simp [hni, Bool.not_eq_true'] at h2
          exact h2
      · by_cases hni : tf.isNull = true
        · exact Or.inl hni
        · rw [Bool.not_eq_true] at hni
          refine Or.inr ?_
          simp [hni, Bool.not_eq_true'] at h7
          exact h7

/-- Witness for C1 at concrete inputs mirroring the `digest9` test case:
an old manifest tagged `main9` is kept because the tag keep filter
matches. -/
theorem shouldDelete_precedence_witness :
    shouldDelete (fun _ _ _ => false)
      ⟨"gcr.io/example/repo", "digest9", 10, some 20, ["main9"]⟩ 100
      .Null (.Any (some (fun t => strStartsWith t "gcr.io")))
      .Null (.Any (some (fun t => strStartsWith t "delete")))
      (.Any (some (fun t => strStartsWith t "main"))) = false :=
  (shouldDelete_precedence (fun _ _ _ => false)
    ⟨"gcr.io/example/repo", "digest9", 10, some 20, ["main9"]⟩ 100
    .Null (.Any (some (fun t => strStartsWith t "gcr.io")))
    .Null (.Any (some (fun t => strStartsWith t "delete")))
    (.Any (some (fun t => strStartsWith t "main")))).1 (by decide)

theorem charListLe_trans : ∀ a b c : List Char,
    charListLe a b = true → charListLe b c = true → charListLe a c = true
  | [], _, _, _, _ => rfl
  | _ :: _, [], _, hab, _ => by simp [charListLe] at hab
  | _ :: _, _ :: _, [], _, hbc => by simp [charListLe] at hbc
  | a :: as, b :: bs, c :: cs, hab, hbc => by
      simp only [charListLe] at hab hbc ⊢
      by_cases h1 : a = b
      · subst h1
        simp only [if_pos rfl] at hab
        by_cases h2 : a = c
        · subst h2
          simp only [if_pos rfl] at hbc ⊢
          exact charListLe_trans as bs cs hab hbc
        · simp only [if_neg h2] at hbc ⊢
          exact hbc
      · simp only [if_neg h1, decide_eq_true_eq] at hab
        by_cases h2 : b = c
        · subst h2
          simp only [if_neg h1, decide_eq_true_eq]
          exact hab
        · simp only [if_neg h2, decide_eq_true_eq] at hbc
          have hac : a < c := lt_trans hab hbc
          simp only [if_neg (ne_of_lt hac), decide_eq_true_eq]
          exact hac

theorem charListLe_total : ∀ a b : List Char,
    (charListLe a b || charListLe b a) = true
  | [], _ => by simp [charListLe]
  | _ :: _, [] => by simp [charListLe]
  | a :: as, b :: bs => by
      simp only [charListLe]
      by_cases h : a = b
      · subst h
        simp only [if_pos rfl]
        exact charListLe_total as bs
      · have h2 : ¬b = a := fun hh => h hh.symm
        simp only [if_neg h, if_neg h2, Bool.or_eq_true, decide_eq_true_eq]
        exact lt_or_gt_of_ne h

theorem strLe_trans (a b c : String) (hab : strLe a b = true)
    (hbc : strLe b c = true) : strLe a c = true :=
  charListLe_trans a.data b.data c.data hab hbc

theorem strLe_total (a b : String) : (strLe a b || strLe b a) = true :=
  charListLe_total a.data b.data

/-- cleanResp (`server.go`): count, the sorted flat list of deleted refs,
and the per-repository map of deleted refs. -/
structure CleanResp where
  count : Nat
  refs : List String
  refsByRepo : List (String × List String)

/-- Response construction in `Server.HTTPHandler` (`server.go`): `count`
is the number of entries of the `deleted` map, `refs` is the
concatenation of all its value lists sorted with `sort.Strings`, and
`refs_by_repo` is the map itself. -/
def buildCleanResp (deleted : List (String × List String)) : CleanResp :=
  { count := deleted.length
  , refs := List.mergeSort ((deleted.map Prod.snd).flatten) strLe
  , refsByRepo := deleted }

/-- C9: in the synchronous response, `refs` is sorted lexicographically
ascending and is a permutation of (so has exactly the multiset of) the
flat concatenation of the per-repository lists of `refs_by_repo`. -/
theorem cleanResp_refs_sorted_flat (deleted : List (String × List String)) :
    List.Pairwise (fun a b => strLe a b = true) (buildCleanResp deleted).refs ∧
    (buildCleanResp deleted).refs.Perm
      (((buildCleanResp deleted).refsByRepo.map Prod.snd).flatten) := by
  constructor
  · exact List.sorted_mergeSort strLe_trans strLe_total _
  · exact List.mergeSort_perm _ _

/-- Deletion-aggregation loop of `Server.clean` (`server.go`): for each
repository in order, the identifiers deleted for it (`cleanRepo`, the
result of `Cleaner.Clean`, an external collaborator here) are appended to
its entry in the `deleted` map only when at least one was deleted. -/
def aggregateDeleted (cleanRepo : String → List String) :
    List String → List (String × List String) → List (String × List String)
  | [], acc => acc
  | repo :: rest, acc =>
      aggregateDeleted cleanRepo rest
        (if (cleanRepo repo).length > 0 then
          setRepo acc repo ((lookupRepo acc repo).getD [] ++ cleanRepo repo)
        else acc)

theorem mem_map_fst_setRepo (l : List (String × List String))
    (k : String) (v : List String) (r : String) :
    r ∈ (setRepo l k v).map Prod.fst ↔ r ∈ l.map Prod.fst ∨ r = k := by
  induction l with
  | nil => simp [setRepo]
  | cons p rest ih =>
      obtain ⟨pk, pv⟩ := p
      by_cases h : pk = k
      · subst h
        simp [setRepo]
        tauto
      · simp [setRepo, h, ih]
        tauto

theorem nodup_map_fst_setRepo (l : List (String × List String))
    (k : String) (v : List String) (h : (l.map Prod.fst).Nodup) :
    ((setRepo l k v).map Prod.fst).Nodup := by
  induction l with
  | nil => simp [setRepo]
  | cons p rest ih =>
      obtain ⟨pk, pv⟩ := p
      simp only [List.map_cons, List.nodup_cons] at h
      by_cases hk : pk = k
      · subst hk
        simpa [setRepo] using h
      · simp only [setRepo, if_neg hk, List.map_cons, List.nodup_cons]
        refine ⟨?_, ih h.2⟩
        rw [mem_map_fst_setRepo]
        rintro (hm | rfl)
        · exact h.1 hm
        · exact hk rfl

theorem mem_setRepo (l : List (String × List String))
    (k : String) (v : List String) (p : String × List String)
    (h : p ∈ setRepo l k v) : p ∈ l ∨ p = (k, v) := by
  induction l with
  | nil => simpa [setRepo] using h
  | cons q rest ih =>
      obtain ⟨qk, qv⟩ := q
      by_cases hk : qk = k
      · subst hk
        rcases (by simpa [setRepo] using h : p = (qk, v) ∨ p ∈ rest) with h1 | h1
        · exact Or.inr h1
        · exact Or.inl (List.mem_cons_of_mem _ h1)
      · rcases (by simpa [setRepo, hk] using h : p = (qk, qv) ∨ p ∈ setRepo rest k v) with h1 | h1
        · exact Or.inl (by simp [h1])
        · rcases ih h1 with h2 | h2
          · exact Or.inl (List.mem_cons_of_mem _ h2)
          · exact Or.inr h2

theorem aggregateDeleted_props (cleanRepo : String → List String) :
    ∀ (repos : List String) (acc : List (String × List String)),
    ((acc.map Prod.fst).Nodup →
      ((aggregateDeleted cleanRepo repos acc).map Prod.fst).Nodup) ∧
    ((∀ p ∈ acc, p.2 ≠ []) →
      ∀ p ∈ aggregateDeleted cleanRepo repos acc, p.2 ≠ []) ∧
    (∀ r, r ∈ (aggregateDeleted cleanRepo repos acc).map Prod.fst ↔
      r ∈ acc.map Prod.fst ∨ (r ∈ repos ∧ cleanRepo r ≠ []))
  | [], acc => by
      refine ⟨fun h => h, fun h => h, fun r => ?_⟩
      simp [aggregateDeleted]
  | repo :: rest, acc => by
      have ih := aggregateDeleted_props cleanRepo rest
      by_cases hc : (cleanRepo repo).length > 0
      · have hcne : cleanRepo repo ≠ [] := by
          intro hnil
          rw [hnil] at hc
          simp at hc
        have hred : aggregateDeleted cleanRepo (repo :: rest) acc =
            aggregateDeleted cleanRepo rest
              (setRepo acc repo ((lookupRepo acc repo).getD [] ++ cleanRepo repo)) := by
          simp [aggregateDeleted, hc]
        refine ⟨?_, ?_, ?_⟩
        · intro hnd
          rw [hred]
          exact (ih _).1 (nodup_map_fst_setRepo _ _ _ hnd)
        · intro hne p hp
          rw [hred] at hp
          refine (ih _).2.1 ?_ p hp
          intro q hq
          rcases mem_setRepo _ _ _ _ hq with h1 | h1
          · exact hne q h1
          · rw [h1]
            simp [hcne]
        · intro r
          rw [hred, (ih _).2.2 r, mem_map_fst_setRepo]
          simp only [List.mem_cons]
          constructor
          · rintro ((ha | rfl) | ⟨hr, hne⟩)
            · exact Or.inl ha
            · exact Or.inr ⟨Or.inl rfl, hcne⟩
            · exact Or.inr ⟨Or.inr hr, hne⟩
          · rintro (ha | ⟨(rfl | hr), hne⟩)
            · exact Or.inl (Or.inl ha)
            · exact Or.inl (Or.inr rfl)
            · exact Or.inr ⟨hr, hne⟩
      · have hnil : cleanRepo repo = [] := by
          rw [← List.length_eq_zero]
          omega
        have hred : aggregateDeleted cleanRepo (repo :: rest) acc =
            aggregateDeleted cleanRepo rest acc := by
          simp [aggregateDeleted, hc]
        refine ⟨?_, ?_, ?_⟩
        · intro hnd
          rw [hred]
          exact (ih _).1 hnd
        · intro hne p hp
          rw [hred] at hp
          exact (ih _).2.1 hne p hp
        · intro r
          rw [hred, (ih _).2.2 r]
          simp only [List.mem_cons]
          constructor
          · rintro (ha | ⟨hr, hne⟩)
            · exact Or.inl ha
            · exact Or.inr ⟨Or.inr hr, hne⟩
          · rintro (ha | ⟨(rfl | hr), hne⟩)
            · exact Or.inl ha
            · exact absurd hnil hne
            · exact Or.inr ⟨hr, hne⟩

/-- C10: in the synchronous response built from the deletion loop of
`Server.clean`, `count` is the number of keys of `refs_by_repo` (the keys
are distinct repositories), every entry of `refs_by_repo` has at least
one deleted identifier (a repository with zero deletions never appears),
and the keys are exactly the requested repositories for which the clean
deleted at least one identifier — so `count` is a repository count, not
the total number of deleted identifiers. -/
theorem cleanResp_count_repo_keys (cleanRepo : String → List String)
    (repos : List String) :
    (buildCleanResp (aggregateDeleted cleanRepo repos [])).count =
      ((aggregateDeleted cleanRepo repos []).map Prod.fst).length ∧
    ((aggregateDeleted cleanRepo repos []).map Prod.fst).Nodup ∧
    (∀ p ∈ aggregateDeleted cleanRepo repos [], p.2 ≠ []) ∧
    (∀ r, r ∈ (aggregateDeleted cleanRepo repos []).map Prod.fst ↔
      r ∈ repos ∧ cleanRepo r ≠ []) := by
  obtain ⟨hnd, hne, hmem⟩ := aggregateDeleted_props cleanRepo repos []
  refine ⟨?_, hnd (by simp), hne (by simp) , fun r => ?_⟩
  · simp [buildCleanResp]
  · rw [hmem r]
    simp

/-- Witness for C10 at concrete inputs: with repositories `a` and `b`
where only `a` has a deletion, `a` is a key of the result. -/
theorem cleanResp_count_repo_keys_witness :
    "a" ∈ ((aggregateDeleted (fun r => if r = "a" then ["x"] else [])
      ["a", "b"] []).map Prod.fst) := by
  have h := (cleanResp_count_repo_keys
    (fun r => if r = "a" then ["x"] else []) ["a", "b"]).2.2.2 "a"
  exact h.mpr ⟨by decide, by decide⟩

/-- Witness for C3 at a concrete filter: the `Any` variant matches a
singleton list whose element matches. -/
theorem itemFilter_matches_semantics_witness :
    ItemFilter.Matches (.Any (some (fun t => t == "a"))) ["a"] = true :=
  (itemFilter_matches_semantics (fun t => t == "a") ["a"]).2.2.1.mpr
    ⟨"a", by decide, by decide⟩
